import Mathlib

/-!
Verification development for the `covers` shade controller.

The Python source (`covers.py`) drives motorized window shades through two
relays.  We give a shallow embedding of its pure/algorithmic core:

* the MQTT topic regular expression `TOPIC_REGEX` (as a parser over `List Char`),
* the configuration validator `_is_config_valid` (with `Except` modelling a
  Python `KeyError`),
* the per-shade command/state machine (`set_open`, `set_close`, `set_stop`,
  the feedback-wait helpers `_state_opening` / `_state_closing` /
  `_state_stopped`) and the position-estimator tick `_track_position`.

Asynchronous feedback polling is modelled by a feedback stream
`fb : Nat → Bool × Bool` giving the observed (open-relay, close-relay)
booleans at successive polls, together with a fuel bound; `none` means the
wait loop never unblocked within the fuel.  `asyncio.gather` calls are
sequenced in argument order.  Emitted MQTT publishes and internal state
commits are recorded as an event trace.
-/

namespace Covers

/-! ## Topic naming (`TOPIC_REGEX`, lines 30-33 of covers.py)

`TOPIC_REGEX = ^(\w+)/(input|relay|cover)/(\w+)/(set|state)$`.
We model topic strings as `List Char`; `\w` is modelled as ASCII word
characters (alphanumeric or underscore).  Since `/` is not a word character
and the alternation literals contain no `/`, matching the anchored regex is
equivalent to splitting on `/` into exactly four groups of the right shape. -/

def isWordChar (c : Char) : Bool := c.isAlphanum || c = '_'

/-- Split a character list on `/` (every occurrence is a separator). -/
def splitSlash : List Char → List (List Char)
  | [] => [[]]
  | c :: rest =>
    if c = '/' then [] :: splitSlash rest
    else
      match splitSlash rest with
      | [] => [[c]]
      | p :: ps => (c :: p) :: ps

/-- Join with `/`: left inverse of `splitSlash`. -/
def joinSlash : List (List Char) → List Char
  | [] => []
  | [p] => p
  | p :: ps => p ++ '/' :: joinSlash ps

/-- A `\w+` group: nonempty, all word characters. -/
def wordB (xs : List Char) : Bool := !xs.isEmpty && xs.all isWordChar

/-- The entity alternation `(input|relay|cover)` of `TOPIC_REGEX`. -/
def entityB (xs : List Char) : Bool :=
  xs == "input".toList || xs == "relay".toList || xs == "cover".toList

/-- The action alternation `(set|state)` of `TOPIC_REGEX`. -/
def actionB (xs : List Char) : Bool :=
  xs == "set".toList || xs == "state".toList

/-- Embedding of matching `TOPIC_REGEX` against a topic string: returns the
four captured groups, or `none` when the topic does not match. -/
def parseTopic (s : List Char) :
    Option (List Char × List Char × List Char × List Char) :=
  match splitSlash s with
  | [b, e, n, a] =>
    if wordB b && entityB e && wordB n && actionB a then some (b, e, n, a)
    else none
  | _ => none

/-- `TOPIC_FORMAT`: `{base_topic}/{entity}/{name}/{action}`. -/
def topicFor (b e n a : List Char) : List Char :=
  b ++ ('/' :: (e ++ ('/' :: (n ++ ('/' :: a)))))

/-- The set of topics the specification claims the parser accepts:
shape `{base}/{entity}/{name}/{action}` with word-shaped base and name,
`entity ∈ {cover, relay, input}` and `action ∈ {set (command), state,
position}`.  (This follows the spec text; compare with `parseTopic`.) -/
def topicClaimed (s : List Char) : Prop :=
  ∃ b e n a, s = topicFor b e n a ∧ wordB b = true ∧
    (e = "cover".toList ∨ e = "relay".toList ∨ e = "input".toList) ∧
    wordB n = true ∧
    (a = "set".toList ∨ a = "state".toList ∨ a = "position".toList)

/-! ## Configuration validation (`_is_config_valid`, lines 461-478)

A configuration maps shade names to relay maps `{open: id, close: id}`.
Python dicts are modelled as association lists (first match wins on lookup).
`relay_map["open"]` can raise `KeyError`; we model the validator in
`Except Unit Bool`, where `.error ()` is an uncaught `KeyError`. -/

abbrev RelayMap := List (String × String)
abbrev Config := List (String × RelayMap)

/-- Python `relay_map[k]` as an `Option` (first binding wins, like a dict). -/
def lookupKey (m : RelayMap) (k : String) : Option String :=
  match m with
  | [] => none
  | (k', v) :: rest => if k' = k then some v else lookupKey rest k

/-- The `for relay in relay_map.values(): if relay in relays ...` loop of
`_is_config_valid`, generalized over all shades: folds the relay ids into the
accumulator `relays`, failing (returning `none`) on the first duplicate. -/
def scanRelays (acc : List String) : List String → Option (List String)
  | [] => some acc
  | v :: vs => if v ∈ acc then none else scanRelays (acc ++ [v]) vs

/-- The per-shade key check `for op in relay_map.keys(): op in (open, close)`. -/
def opsOK (m : RelayMap) : Bool :=
  m.all fun kv => kv.1 == "open" || kv.1 == "close"

/-- Loop body of `_is_config_valid` with the running `relays` accumulator.
`.ok b` is a `return b`; `.error ()` is an uncaught `KeyError` from
`relay_map["open"]` / `relay_map["close"]`. -/
def isConfigValidAux (relays : List String) : Config → Except Unit Bool
  | [] => .ok true
  | (_, m) :: rest =>
    if opsOK m then
      match lookupKey m "open" with
      | none => .error ()
      | some ro =>
        match lookupKey m "close" with
        | none => .error ()
        | some rc =>
          if ro = rc then .ok false
          else
            match scanRelays relays (m.map Prod.snd) with
            | none => .ok false
            | some relays' => isConfigValidAux relays' rest
    else .ok false

/-- Embedding of `_is_config_valid(config)`. -/
def isConfigValid (c : Config) : Except Unit Bool := isConfigValidAux [] c

/-- All relay ids of the configuration, in iteration order. -/
def configRelays (c : Config) : List String :=
  match c with
  | [] => []
  | (_, m) :: rest => m.map Prod.snd ++ configRelays rest

/-- Validity of one shade as the specification states it: every key is
`open` or `close`, both directions are present, and the two relay ids
differ.  (Spec-side definition, to be compared with `isConfigValid`.) -/
def shadeSpecOK (m : RelayMap) : Prop :=
  (∀ kv ∈ m, kv.1 = "open" ∨ kv.1 = "close") ∧
  (lookupKey m "open").isSome ∧ (lookupKey m "close").isSome ∧
  lookupKey m "open" ≠ lookupKey m "close"

/-- Validity of a configuration as the specification states it: every shade
valid, and relay ids globally unique.  (Spec-side definition.) -/
def configValidSpec (c : Config) : Prop :=
  (∀ sh ∈ c, shadeSpecOK sh.2) ∧ (configRelays c).Nodup

/-- The `__main__` gate (lines 498-500): the process proceeds to build the
shades and connect to the MQTT broker iff the validator returned `True`;
on `False` it calls `sys.exit(1)`, and an uncaught `KeyError` also
terminates the process with nonzero status. -/
def mainConnectsBus (c : Config) : Bool :=
  match isConfigValid c with
  | .ok true => true
  | _ => false

/-! ## The per-shade controller (`class Shade`)

Logical state constants `OPENING/CLOSING/STOPPED`, direction constants
`+1`, `-1`, `0`, the observed relay booleans, the position estimator fields.
Relay write commands, cover publications and internal state commits are
recorded as an event trace.  The feedback-wait loops poll a stream
`fb : Nat → Bool × Bool` of observed (open-relay, close-relay) states, with
a fuel bound standing for the unbounded `while` loop. -/

inductive CoverSt
  | stopped
  | opening
  | closing
  deriving DecidableEq, Repr

inductive RelayId
  | openR
  | closeR
  deriving DecidableEq, Repr

inductive Ev
  | relayWrite (r : RelayId) (b : Bool)
  | commit (st : CoverSt)
  | pubPosition (p : Int)
  | pubState (s : String)
  deriving DecidableEq, Repr

structure Shade where
  state : CoverSt
  position : Int
  direction : Int
  openRelayState : Bool
  closeRelayState : Bool
  maxPosition : Int
  increment : Int
  deriving DecidableEq, Repr

/-- A stream of observed (open-relay, close-relay) feedback booleans,
one pair per poll of the wait loops. -/
abbrev Fb := Nat → Bool × Bool

/-- Wait predicate of `_state_opening`: `open_relay_state and not close_relay_state`. -/
def openingPred (p : Bool × Bool) : Bool := p.1 && !p.2

/-- Wait predicate of `_state_closing`: `not open_relay_state and close_relay_state`. -/
def closingPred (p : Bool × Bool) : Bool := !p.1 && p.2

/-- Wait predicate of `_state_stopped`: `not open_relay_state and not close_relay_state`. -/
def stoppedPred (p : Bool × Bool) : Bool := !p.1 && !p.2

/-- The polling `while` loop: starting at poll index `i` with `fuel`
remaining polls, return the first index whose observation satisfies `pred`. -/
def waitFor (pred : Bool × Bool → Bool) (fb : Fb) (i : Nat) : Nat → Option Nat
  | 0 => none
  | fuel + 1 => if pred (fb i) then some i else waitFor pred fb (i + 1) fuel

/-- `Shade._state_opening`: block until the feedback shows open-on ∧ ¬close-on,
then commit state `OPENING`, start the estimator direction (+1, via
`_position_open`) and publish `"opening"` on the cover state topic.
Returns the commit poll index, the new shade and the emitted events. -/
def state_opening (fb : Fb) (fuel : Nat) (s : Shade) :
    Option (Nat × Shade × List Ev) :=
  match waitFor openingPred fb 0 fuel with
  | none => none
  | some i =>
    some (i,
      { s with state := .opening, direction := 1,
               openRelayState := (fb i).1, closeRelayState := (fb i).2 },
      [Ev.commit .opening, Ev.pubState "opening"])

/-- `Shade._state_closing`: block until ¬open-on ∧ close-on, then commit
state `CLOSING`, set direction -1 and publish `"closing"`. -/
def state_closing (fb : Fb) (fuel : Nat) (s : Shade) :
    Option (Nat × Shade × List Ev) :=
  match waitFor closingPred fb 0 fuel with
  | none => none
  | some i =>
    some (i,
      { s with state := .closing, direction := -1,
               openRelayState := (fb i).1, closeRelayState := (fb i).2 },
      [Ev.commit .closing, Ev.pubState "closing"])

/-- `Shade._state_stopped`: block until ¬open-on ∧ ¬close-on, then commit
state `STOPPED` and stop the estimator (direction 0); publishes nothing. -/
def state_stopped (fb : Fb) (fuel : Nat) (s : Shade) :
    Option (Nat × Shade × List Ev) :=
  match waitFor stoppedPred fb 0 fuel with
  | none => none
  | some i =>
    some (i,
      { s with state := .stopped, direction := 0,
               openRelayState := (fb i).1, closeRelayState := (fb i).2 },
      [Ev.commit .stopped])

/-- `Shade.set_open` (lines 304-326).  `asyncio.gather` arguments are
sequenced in order; relay command publishes come before the feedback wait. -/
def set_open (fb : Fb) (fuel : Nat) (s : Shade) : Option (Shade × List Ev) :=
  if s.state = .stopped then
    match state_opening fb fuel s with
    | none => none
    | some (_, s', evs) =>
      some (s', Ev.relayWrite .closeR false :: Ev.relayWrite .openR true :: evs)
  else if s.state = .closing then
    match state_stopped fb fuel s with
    | none => none
    | some (i, s1, evs1) =>
      match state_opening (fun k => fb (i + 1 + k)) fuel s1 with
      | none => none
      | some (_, s2, evs2) =>
        some (s2,
          (Ev.relayWrite .closeR false :: Ev.relayWrite .openR false :: evs1) ++
          (Ev.relayWrite .closeR false :: Ev.relayWrite .openR true :: evs2))
  else some (s, [])

/-- `Shade.set_close` (lines 336-358). -/
def set_close (fb : Fb) (fuel : Nat) (s : Shade) : Option (Shade × List Ev) :=
  if s.state = .stopped then
    match state_closing fb fuel s with
    | none => none
    | some (_, s', evs) =>
      some (s', Ev.relayWrite .closeR true :: Ev.relayWrite .openR false :: evs)
  else if s.state = .opening then
    match state_stopped fb fuel s with
    | none => none
    | some (i, s1, evs1) =>
      match state_closing (fun k => fb (i + 1 + k)) fuel s1 with
      | none => none
      | some (_, s2, evs2) =>
        some (s2,
          (Ev.relayWrite .closeR false :: Ev.relayWrite .openR false :: evs1) ++
          (Ev.relayWrite .closeR true :: Ev.relayWrite .openR false :: evs2))
  else some (s, [])

/-- `Shade.set_stop` (lines 328-334): both relays off, await both-off feedback,
commit `STOPPED`. -/
def set_stop (fb : Fb) (fuel : Nat) (s : Shade) : Option (Shade × List Ev) :=
  match state_stopped fb fuel s with
  | none => none
  | some (_, s', evs) =>
    some (s', Ev.relayWrite .closeR false :: Ev.relayWrite .openR false :: evs)

/-- Position/direction update at the top of each `_track_position` iteration
(lines 242-248): `new = position + direction * increment`; when `new` leaves
`[0, max_position]`, the direction is forced to `STOPPED` and the position is
clamped to `max(min(max_position, new), 0)`.  Returns (new position, new
direction). -/
def trackStep (maxPos inc pos dir : Int) : Int × Int :=
  let np := pos + dir * inc
  if ¬ (0 ≤ np ∧ np ≤ maxPos) then (max (min maxPos np) 0, 0) else (np, dir)

/-- Positions after each tick of `trackStep`, for a given direction history
(the direction before each tick is arbitrary: commands may overwrite it). -/
def runTrack (maxPos inc pos : Int) : List Int → List Int
  | [] => []
  | d :: ds =>
    let np := (trackStep maxPos inc pos d).1
    np :: runTrack maxPos inc np ds

/-- The interior-position publish (lines 250-257): published while
`0 < position < max_position` and the direction is not stopped. -/
def posEvents (r : Int × Int) (maxPos : Int) : List Ev :=
  if 0 < r.1 ∧ r.1 < maxPos ∧ r.2 ≠ 0 then [Ev.pubPosition r.1] else []

/-- Body of the `_track_position` iteration after the position/direction
update `r = (new position, new direction)` has been computed. -/
def tickCore (fb : Fb) (fuel : Nat) (s : Shade) (r : Int × Int) :
    Option (Shade × List Ev) :=
  if r.1 = 0 ∧ s.state ≠ .stopped then
    match set_stop fb fuel { s with position := r.1, direction := r.2 } with
    | none => none
    | some (s2, t) =>
      some (s2, posEvents r s.maxPosition ++ t ++ [Ev.pubPosition 0, Ev.pubState "closed"])
  else if r.1 = s.maxPosition ∧ s.state ≠ .stopped then
    match set_stop fb fuel { s with position := r.1, direction := r.2 } with
    | none => none
    | some (s2, t) =>
      some (s2, posEvents r s.maxPosition ++ t ++ [Ev.pubPosition s.maxPosition, Ev.pubState "open"])
  else some ({ s with position := r.1, direction := r.2 }, posEvents r s.maxPosition)

/-- One iteration of `Shade._track_position` (lines 240-286): update
position/direction via `trackStep`, publish the position while strictly
interior and moving, and at the boundaries (position 0 or max while the
logical state is not `STOPPED`) run `set_stop` and publish the position and
the derived state (`"closed"` at 0, `"open"` at max), in `gather` argument
order. -/
def tick (fb : Fb) (fuel : Nat) (s : Shade) : Option (Shade × List Ev) :=
  tickCore fb fuel s (trackStep s.maxPosition s.increment s.position s.direction)

/-! ## Command sequences and relay-write traces -/

inductive Cmd
  | cOpen
  | cClose
  | cStop
  deriving DecidableEq, Repr

/-- Dispatch of `_subscribe_cover` (lines 233-238): payload to handler. -/
def step (fb : Fb) (fuel : Nat) (s : Shade) : Cmd → Option (Shade × List Ev)
  | .cOpen => set_open fb fuel s
  | .cClose => set_close fb fuel s
  | .cStop => set_stop fb fuel s

/-- Serialized processing of a command sequence (the `async for` loop of
`_subscribe_cover` awaits each handler before the next message), each command
with its own feedback stream; the traces are concatenated. -/
def runCmds (fuel : Nat) (s : Shade) : List (Cmd × Fb) → Option (Shade × List Ev)
  | [] => some (s, [])
  | (c, fb) :: rest =>
    match step fb fuel s c with
    | none => none
    | some (s1, t1) =>
      match runCmds fuel s1 rest with
      | none => none
      | some (s2, t2) => some (s2, t1 ++ t2)

/-- Commanded relay pair (open, close) after a relay write event. -/
def applyW (p : Bool × Bool) : Ev → Bool × Bool
  | .relayWrite .openR b => (b, p.2)
  | .relayWrite .closeR b => (p.1, b)
  | _ => p

/-- The commanded relay pair never has both relays ON after any prefix of the
trace, starting from pair `p`. -/
def neverBothOn (p : Bool × Bool) : List Ev → Bool
  | [] => true
  | e :: t =>
    let p' := applyW p e
    !(p'.1 && p'.2) && neverBothOn p' t

/-- An ON relay write. -/
def isOnWrite : Ev → Bool
  | .relayWrite _ true => true
  | _ => false

/-! ## Helper lemmas -/

theorem waitFor_spec : ∀ (fuel : Nat) (pred : Bool × Bool → Bool) (fb : Fb) (i j : Nat),
    waitFor pred fb i fuel = some j →
    i ≤ j ∧ j < i + fuel ∧ pred (fb j) = true ∧
      ∀ k, i ≤ k → k < j → pred (fb k) = false := by
  intro fuel
  induction fuel with
  | zero => intro pred fb i j h; simp [waitFor] at h
  | succ n ih =>
    intro pred fb i j h
    rw [waitFor] at h
    by_cases hp : pred (fb i) = true
    · rw [if_pos hp] at h
      cases h
      refine ⟨le_refl _, by omega, hp, ?_⟩
      intro k hk hk'
      omega
    · rw [if_neg hp] at h
      obtain ⟨h1, h2, h3, h4⟩ := ih pred fb (i + 1) j h
      refine ⟨by omega, by omega, h3, ?_⟩
      intro k hk hk'
      rcases Nat.eq_or_lt_of_le hk with rfl | hlt
      · simpa using hp
      · exact h4 k hlt hk'

theorem waitFor_none : ∀ (fuel : Nat) (pred : Bool × Bool → Bool) (fb : Fb) (i : Nat),
    (∀ k, i ≤ k → k < i + fuel → pred (fb k) = false) →
    waitFor pred fb i fuel = none := by
  intro fuel
  induction fuel with
  | zero => intro pred fb i _; rfl
  | succ n ih =>
    intro pred fb i h
    rw [waitFor]
    rw [if_neg (by simp [h i (le_refl i) (by omega)])]
    exact ih pred fb (i + 1) fun k hk hk' => h k (by omega) (by omega)

theorem state_stopped_eq (fb : Fb) (fuel : Nat) (s : Shade) (i : Nat) (s' : Shade)
    (evs : List Ev) (h : state_stopped fb fuel s = some (i, s', evs)) :
    waitFor stoppedPred fb 0 fuel = some i ∧
      s' = { s with state := .stopped, direction := 0, openRelayState := (fb i).1, closeRelayState := (fb i).2 } ∧
      evs = [Ev.commit .stopped] := by
  unfold state_stopped at h
  cases hw : waitFor stoppedPred fb 0 fuel with
  | none => rw [hw] at h; exact absurd h (by simp)
  | some k =>
    rw [hw] at h
    simp only [Option.some.injEq, Prod.mk.injEq] at h
    obtain ⟨h1, h2, h3⟩ := h
    subst h1
    exact ⟨rfl, h2.symm, h3.symm⟩

theorem state_opening_eq (fb : Fb) (fuel : Nat) (s : Shade) (i : Nat) (s' : Shade)
    (evs : List Ev) (h : state_opening fb fuel s = some (i, s', evs)) :
    waitFor openingPred fb 0 fuel = some i ∧
      s' = { s with state := .opening, direction := 1, openRelayState := (fb i).1, closeRelayState := (fb i).2 } ∧
      evs = [Ev.commit .opening, Ev.pubState "opening"] := by
  unfold state_opening at h
  cases hw : waitFor openingPred fb 0 fuel with
  | none => rw [hw] at h; exact absurd h (by simp)
  | some k =>
    rw [hw] at h
    simp only [Option.some.injEq, Prod.mk.injEq] at h
    obtain ⟨h1, h2, h3⟩ := h
    subst h1
    exact ⟨rfl, h2.symm, h3.symm⟩

theorem state_closing_eq (fb : Fb) (fuel : Nat) (s : Shade) (i : Nat) (s' : Shade)
    (evs : List Ev) (h : state_closing fb fuel s = some (i, s', evs)) :
    waitFor closingPred fb 0 fuel = some i ∧
      s' = { s with state := .closing, direction := -1, openRelayState := (fb i).1, closeRelayState := (fb i).2 } ∧
      evs = [Ev.commit .closing, Ev.pubState "closing"] := by
  unfold state_closing at h
  cases hw : waitFor closingPred fb 0 fuel with
  | none => rw [hw] at h; exact absurd h (by simp)
  | some k =>
    rw [hw] at h
    simp only [Option.some.injEq, Prod.mk.injEq] at h
    obtain ⟨h1, h2, h3⟩ := h
    subst h1
    exact ⟨rfl, h2.symm, h3.symm⟩

theorem set_stop_eq (fb : Fb) (fuel : Nat) (s s' : Shade) (t : List Ev)
    (h : set_stop fb fuel s = some (s', t)) :
    ∃ i, waitFor stoppedPred fb 0 fuel = some i ∧
      s' = { s with state := .stopped, direction := 0, openRelayState := (fb i).1, closeRelayState := (fb i).2 } ∧
      t = [Ev.relayWrite .closeR false, Ev.relayWrite .openR false, Ev.commit .stopped] := by
  unfold set_stop at h
  cases hs : state_stopped fb fuel s with
  | none => rw [hs] at h; exact absurd h (by simp)
  | some r =>
    obtain ⟨i, s1, evs⟩ := r
    rw [hs] at h
    simp only [Option.some.injEq, Prod.mk.injEq] at h
    obtain ⟨h1, h2⟩ := h
    obtain ⟨hw, hs1, hevs⟩ := state_stopped_eq fb fuel s i s1 evs hs
    subst h1
    exact ⟨i, hw, hs1, by rw [← h2, hevs]⟩

theorem set_open_stopped (fb : Fb) (fuel : Nat) (s s' : Shade) (t : List Ev)
    (hst : s.state = .stopped) (h : set_open fb fuel s = some (s', t)) :
    ∃ i, waitFor openingPred fb 0 fuel = some i ∧
      s' = { s with state := .opening, direction := 1, openRelayState := (fb i).1, closeRelayState := (fb i).2 } ∧
      t = [Ev.relayWrite .closeR false, Ev.relayWrite .openR true,
           Ev.commit .opening, Ev.pubState "opening"] := by
  unfold set_open at h
  rw [if_pos hst] at h
  cases hs : state_opening fb fuel s with
  | none => rw [hs] at h; exact absurd h (by simp)
  | some r =>
    obtain ⟨i, s1, evs⟩ := r
    rw [hs] at h
    simp only [Option.some.injEq, Prod.mk.injEq] at h
    obtain ⟨h1, h2⟩ := h
    obtain ⟨hw, hs1, hevs⟩ := state_opening_eq fb fuel s i s1 evs hs
    subst h1
    exact ⟨i, hw, hs1, by rw [← h2, hevs]⟩

theorem set_close_stopped (fb : Fb) (fuel : Nat) (s s' : Shade) (t : List Ev)
    (hst : s.state = .stopped) (h : set_close fb fuel s = some (s', t)) :
    ∃ i, waitFor closingPred fb 0 fuel = some i ∧
      s' = { s with state := .closing, direction := -1, openRelayState := (fb i).1, closeRelayState := (fb i).2 } ∧
      t = [Ev.relayWrite .closeR true, Ev.relayWrite .openR false,
           Ev.commit .closing, Ev.pubState "closing"] := by
  unfold set_close at h
  rw [if_pos hst] at h
  cases hs : state_closing fb fuel s with
  | none => rw [hs] at h; exact absurd h (by simp)
  | some r =>
    obtain ⟨i, s1, evs⟩ := r
    rw [hs] at h
    simp only [Option.some.injEq, Prod.mk.injEq] at h
    obtain ⟨h1, h2⟩ := h
    obtain ⟨hw, hs1, hevs⟩ := state_closing_eq fb fuel s i s1 evs hs
    subst h1
    exact ⟨i, hw, hs1, by rw [← h2, hevs]⟩

theorem set_open_closing (fb : Fb) (fuel : Nat) (s s' : Shade) (t : List Ev)
    (hst : s.state = .closing) (h : set_open fb fuel s = some (s', t)) :
    ∃ i j, waitFor stoppedPred fb 0 fuel = some i ∧
      waitFor openingPred (fun k => fb (i + 1 + k)) 0 fuel = some j ∧
      s' = { s with state := .opening, direction := 1, openRelayState := (fb (i + 1 + j)).1, closeRelayState := (fb (i + 1 + j)).2 } ∧
      t = [Ev.relayWrite .closeR false, Ev.relayWrite .openR false, Ev.commit .stopped,
           Ev.relayWrite .closeR false, Ev.relayWrite .openR true,
           Ev.commit .opening, Ev.pubState "opening"] := by
  unfold set_open at h
  rw [if_neg (by simp [hst]), if_pos hst] at h
  split at h
  · exact absurd h (by simp)
  · rename_i i s1 evs1 hs
    split at h
    · exact absurd h (by simp)
    · rename_i j s2 evs2 ho
      simp only [Option.some.injEq, Prod.mk.injEq] at h
      obtain ⟨h1, h2⟩ := h
      obtain ⟨hw1, hs1, hevs1⟩ := state_stopped_eq fb fuel s i s1 evs1 hs
      obtain ⟨hw2, hs2, hevs2⟩ := state_opening_eq _ fuel s1 j s2 evs2 ho
      subst h1
      refine ⟨i, j, hw1, hw2, ?_, ?_⟩
      · rw [hs2, hs1]
      · rw [← h2, hevs1, hevs2]; rfl

theorem set_close_opening (fb : Fb) (fuel : Nat) (s s' : Shade) (t : List Ev)
    (hst : s.state = .opening) (h : set_close fb fuel s = some (s', t)) :
    ∃ i j, waitFor stoppedPred fb 0 fuel = some i ∧
      waitFor closingPred (fun k => fb (i + 1 + k)) 0 fuel = some j ∧
      s' = { s with state := .closing, direction := -1, openRelayState := (fb (i + 1 + j)).1, closeRelayState := (fb (i + 1 + j)).2 } ∧
      t = [Ev.relayWrite .closeR false, Ev.relayWrite .openR false, Ev.commit .stopped,
           Ev.relayWrite .closeR true, Ev.relayWrite .openR false,
           Ev.commit .closing, Ev.pubState "closing"] := by
  unfold set_close at h
  rw [if_neg (by simp [hst]), if_pos hst] at h
  split at h
  · exact absurd h (by simp)
  · rename_i i s1 evs1 hs
    split at h
    · exact absurd h (by simp)
    · rename_i j s2 evs2 ho
      simp only [Option.some.injEq, Prod.mk.injEq] at h
      obtain ⟨h1, h2⟩ := h
      obtain ⟨hw1, hs1, hevs1⟩ := state_stopped_eq fb fuel s i s1 evs1 hs
      obtain ⟨hw2, hs2, hevs2⟩ := state_closing_eq _ fuel s1 j s2 evs2 ho
      subst h1
      refine ⟨i, j, hw1, hw2, ?_, ?_⟩
      · rw [hs2, hs1]
      · rw [← h2, hevs1, hevs2]; rfl

theorem set_open_noop (fb : Fb) (fuel : Nat) (s : Shade)
    (h1 : s.state ≠ .stopped) (h2 : s.state ≠ .closing) :
    set_open fb fuel s = some (s, []) := by
  unfold set_open
  rw [if_neg h1, if_neg h2]

theorem set_close_noop (fb : Fb) (fuel : Nat) (s : Shade)
    (h1 : s.state ≠ .stopped) (h2 : s.state ≠ .opening) :
    set_close fb fuel s = some (s, []) := by
  unfold set_close
  rw [if_neg h1, if_neg h2]

theorem clampBounds (maxPos np d : Int) (hm : 0 ≤ maxPos) :
    0 ≤ (if ¬ (0 ≤ np ∧ np ≤ maxPos) then (max (min maxPos np) 0, (0 : Int)) else (np, d)).1 ∧
    (if ¬ (0 ≤ np ∧ np ≤ maxPos) then (max (min maxPos np) 0, (0 : Int)) else (np, d)).1 ≤ maxPos := by
  refine ⟨?_, ?_⟩ <;> split <;> simp <;> omega

theorem trackStep_bounds (maxPos inc pos dir : Int) (hm : 0 ≤ maxPos) :
    0 ≤ (trackStep maxPos inc pos dir).1 ∧ (trackStep maxPos inc pos dir).1 ≤ maxPos :=
  clampBounds maxPos (pos + dir * inc) dir hm

theorem runTrack_bounds : ∀ (ds : List Int) (maxPos inc pos : Int), 0 ≤ maxPos →
    ∀ p ∈ runTrack maxPos inc pos ds, 0 ≤ p ∧ p ≤ maxPos := by
  intro ds
  induction ds with
  | nil => intro maxPos inc pos _ p hp; simp [runTrack] at hp
  | cons d ds ih =>
    intro maxPos inc pos hm p hp
    rw [runTrack] at hp
    rcases List.mem_cons.mp hp with rfl | hp'
    · exact trackStep_bounds maxPos inc pos d hm
    · exact ih maxPos inc _ hm p hp'

theorem tickCore_cases (fb : Fb) (fuel : Nat) (s : Shade) (r : Int × Int)
    (s' : Shade) (t : List Ev) (h : tickCore fb fuel s r = some (s', t)) :
    s'.position = r.1 ∧ s'.maxPosition = s.maxPosition ∧ s'.increment = s.increment ∧
    ((s'.state = .stopped ∧ s'.direction = 0) ∨ (s'.state = s.state ∧ s'.direction = r.2)) := by
  unfold tickCore at h
  split at h
  · split at h
    · exact absurd h (by simp)
    · rename_i s2 t2 hstop
      simp only [Option.some.injEq, Prod.mk.injEq] at h
      obtain ⟨h1, h2⟩ := h
      obtain ⟨i, hw, hs2, ht⟩ := set_stop_eq _ _ _ _ _ hstop
      subst h1
      rw [hs2]
      exact ⟨rfl, rfl, rfl, Or.inl ⟨rfl, rfl⟩⟩
  · split at h
    · split at h
      · exact absurd h (by simp)
      · rename_i s2 t2 hstop
        simp only [Option.some.injEq, Prod.mk.injEq] at h
        obtain ⟨h1, h2⟩ := h
        obtain ⟨i, hw, hs2, ht⟩ := set_stop_eq _ _ _ _ _ hstop
        subst h1
        rw [hs2]
        exact ⟨rfl, rfl, rfl, Or.inl ⟨rfl, rfl⟩⟩
    · simp only [Option.some.injEq, Prod.mk.injEq] at h
      obtain ⟨h1, h2⟩ := h
      subst h1
      exact ⟨rfl, rfl, rfl, Or.inr ⟨rfl, rfl⟩⟩

/-! ## Claims -/

/-- Claim C3: for every direction history and any number of estimator ticks,
the position stays within `[0, max_position]` after every tick: the update
`position + direction * increment` is clamped and never overshoots.  Stated
for the raw update `trackStep`, for iterated updates under an arbitrary
direction history (`runTrack`), and for the full tick of `_track_position`. -/
theorem C3_position_always_in_bounds :
    (∀ maxPos inc pos dir : Int, 0 ≤ maxPos →
      0 ≤ (trackStep maxPos inc pos dir).1 ∧ (trackStep maxPos inc pos dir).1 ≤ maxPos) ∧
    (∀ (maxPos inc pos : Int) (ds : List Int), 0 ≤ maxPos →
      ∀ p ∈ runTrack maxPos inc pos ds, 0 ≤ p ∧ p ≤ maxPos) ∧
    (∀ (fb : Fb) (fuel : Nat) (s s' : Shade) (t : List Ev), 0 ≤ s.maxPosition →
      tick fb fuel s = some (s', t) → 0 ≤ s'.position ∧ s'.position ≤ s.maxPosition) := by
  refine ⟨fun maxPos inc pos dir hm => trackStep_bounds maxPos inc pos dir hm,
    fun maxPos inc pos ds hm => runTrack_bounds ds maxPos inc pos hm,
    fun fb fuel s s' t hm h => ?_⟩
  unfold tick at h
  obtain ⟨hpos, _, _, _⟩ := tickCore_cases _ _ _ _ _ _ h
  rw [hpos]
  exact trackStep_bounds s.maxPosition s.increment s.position s.direction hm

/-- Witness for C3 at concrete inputs (`max_position = 100`, `increment = 2`,
as in the spec scenario). -/
theorem C3_position_always_in_bounds_witness :
    (0 ≤ (trackStep 100 2 99 1).1 ∧ (trackStep 100 2 99 1).1 ≤ 100) ∧
    (∀ p ∈ runTrack 100 2 100 [-1, -1, 0, 1], 0 ≤ p ∧ p ≤ 100) :=
  ⟨C3_position_always_in_bounds.1 100 2 99 1 (by norm_num),
   C3_position_always_in_bounds.2.1 100 2 100 [-1, -1, 0, 1] (by norm_num)⟩

/-- Claim C6: a same-direction command is a no-op: `Open` while already
`Opening` (and `Close` while `Closing`) produces no relay write, no state
change and no publication — the handler returns the unchanged shade and an
empty event trace. -/
theorem C6_same_direction_noop (fb : Fb) (fuel : Nat) (s : Shade) :
    (s.state = .opening → set_open fb fuel s = some (s, [])) ∧
    (s.state = .closing → set_close fb fuel s = some (s, [])) := by
  constructor
  · intro h; exact set_open_noop fb fuel s (by simp [h]) (by simp [h])
  · intro h; exact set_close_noop fb fuel s (by simp [h]) (by simp [h])

def constFb (p : Bool × Bool) : Fb := fun _ => p

def demoOpening : Shade := ⟨CoverSt.opening, 50, 1, true, false, 100, 2⟩

def demoClosing : Shade := ⟨CoverSt.closing, 50, -1, false, true, 100, 2⟩

/-- Witness for C6 on concrete shades. -/
theorem C6_same_direction_noop_witness :
    set_open (constFb (false, false)) 1 demoOpening = some (demoOpening, []) ∧
    set_close (constFb (false, false)) 1 demoClosing = some (demoClosing, []) :=
  ⟨(C6_same_direction_noop (constFb (false, false)) 1 demoOpening).1 rfl,
   (C6_same_direction_noop (constFb (false, false)) 1 demoClosing).2 rfl⟩

/-- Claim C10: `_is_config_valid` is not total: on a syntactically valid
configuration whose relay map has only keys from `{open, close}` but lacks
the `close` key, it raises `KeyError` (here: `.error ()`) instead of
returning `False`. -/
theorem C10_validator_keyerror_on_missing_direction :
    isConfigValid [("kitchen", [("open", "relay_1")])] = .error () := rfl

theorem waitFor_zero_none (pred : Bool × Bool → Bool) (fb : Fb) (fuel : Nat)
    (h : ∀ j, j < fuel → pred (fb j) = false) : waitFor pred fb 0 fuel = none :=
  waitFor_none fuel pred fb 0 fun k _ hk => h k (by omega)

/-- Claim C2: logical state is committed only after observed relay feedback
corroborates the target relay combination.  `_state_opening` commits
`Opening` only at a poll where the observed pair satisfies
open-on ∧ ¬close-on (and at the first such poll, having re-polled through
every earlier failing observation); `_state_closing` and `_state_stopped`
are analogous; and each blocks (returns nothing within any fuel bound) when
its predicate never holds — for every initial relay-observation state `s`. -/
theorem C2_state_committed_only_on_feedback (fb : Fb) (fuel : Nat) (s : Shade) :
    (∀ i s' evs, state_opening fb fuel s = some (i, s', evs) →
      openingPred (fb i) = true ∧ s'.state = .opening ∧
      s'.openRelayState = true ∧ s'.closeRelayState = false ∧
      (∀ j, j < i → openingPred (fb j) = false)) ∧
    ((∀ j, j < fuel → openingPred (fb j) = false) → state_opening fb fuel s = none) ∧
    (∀ i s' evs, state_closing fb fuel s = some (i, s', evs) →
      closingPred (fb i) = true ∧ s'.state = .closing ∧
      s'.openRelayState = false ∧ s'.closeRelayState = true ∧
      (∀ j, j < i → closingPred (fb j) = false)) ∧
    ((∀ j, j < fuel → closingPred (fb j) = false) → state_closing fb fuel s = none) ∧
    (∀ i s' evs, state_stopped fb fuel s = some (i, s', evs) →
      stoppedPred (fb i) = true ∧ s'.state = .stopped ∧
      s'.openRelayState = false ∧ s'.closeRelayState = false ∧
      (∀ j, j < i → stoppedPred (fb j) = false)) ∧
    ((∀ j, j < fuel → stoppedPred (fb j) = false) → state_stopped fb fuel s = none) := by
  refine ⟨?_, ?_, ?_, ?_, ?_, ?_⟩
  · intro i s' evs h
    obtain ⟨hw, hs', _⟩ := state_opening_eq fb fuel s i s' evs h
    obtain ⟨_, _, hpred, hmin⟩ := waitFor_spec fuel openingPred fb 0 i hw
    have h1 : (fb i).1 = true ∧ (fb i).2 = false := by
      have := hpred
      unfold openingPred at this
      constructor
      · exact (Bool.and_eq_true _ _ |>.mp this).1
      · simpa using (Bool.and_eq_true _ _ |>.mp this).2
    refine ⟨hpred, by rw [hs'], by rw [hs']; exact h1.1, by rw [hs']; exact h1.2, ?_⟩
    intro j hj
    exact hmin j (by omega) hj
  · intro h
    unfold state_opening
    rw [waitFor_zero_none openingPred fb fuel h]
  · intro i s' evs h
    obtain ⟨hw, hs', _⟩ := state_closing_eq fb fuel s i s' evs h
    obtain ⟨_, _, hpred, hmin⟩ := waitFor_spec fuel closingPred fb 0 i hw
    have h1 : (fb i).1 = false ∧ (fb i).2 = true := by
      have := hpred
      unfold closingPred at this
      constructor
      · simpa using (Bool.and_eq_true _ _ |>.mp this).1
      · exact (Bool.and_eq_true _ _ |>.mp this).2
    refine ⟨hpred, by rw [hs'], by rw [hs']; exact h1.1, by rw [hs']; exact h1.2, ?_⟩
    intro j hj
    exact hmin j (by omega) hj
  · intro h
    unfold state_closing
    rw [waitFor_zero_none closingPred fb fuel h]
  · intro i s' evs h
    obtain ⟨hw, hs', _⟩ := state_stopped_eq fb fuel s i s' evs h
    obtain ⟨_, _, hpred, hmin⟩ := waitFor_spec fuel stoppedPred fb 0 i hw
    have h1 : (fb i).1 = false ∧ (fb i).2 = false := by
      have := hpred
      unfold stoppedPred at this
      constructor
      · simpa using (Bool.and_eq_true _ _ |>.mp this).1
      · simpa using (Bool.and_eq_true _ _ |>.mp this).2
    refine ⟨hpred, by rw [hs'], by rw [hs']; exact h1.1, by rw [hs']; exact h1.2, ?_⟩
    intro j hj
    exact hmin j (by omega) hj
  · intro h
    unfold state_stopped
    rw [waitFor_zero_none stoppedPred fb fuel h]

def demoStopped : Shade := ⟨CoverSt.stopped, 100, 0, false, false, 100, 2⟩

/-- Witness for C2: a commit happens under corroborating feedback, and the
wait blocks forever under contradicting feedback (both relays reported on). -/
theorem C2_state_committed_only_on_feedback_witness :
    openingPred (constFb (true, false) 0) = true ∧
    state_stopped (constFb (true, true)) 3 demoOpening = none := by
  constructor
  · exact ((C2_state_committed_only_on_feedback (constFb (true, false)) 1 demoStopped).1 0
      (⟨CoverSt.opening, 100, 1, true, false, 100, 2⟩ : Shade)
      [Ev.commit .opening, Ev.pubState "opening"] rfl).1
  · exact (C2_state_committed_only_on_feedback (constFb (true, true)) 3
      demoOpening).2.2.2.2.2 fun j _ => rfl

theorem iteSnd (maxPos np d : Int) :
    ((if ¬ (0 ≤ np ∧ np ≤ maxPos) then (max (min maxPos np) 0, (0 : Int)) else (np, d)).2 = 0) ∨
    ((if ¬ (0 ≤ np ∧ np ≤ maxPos) then (max (min maxPos np) 0, (0 : Int)) else (np, d)).2 = d) := by
  split <;> simp

theorem trackStep_snd (maxPos inc pos dir : Int) :
    (trackStep maxPos inc pos dir).2 = 0 ∨ (trackStep maxPos inc pos dir).2 = dir :=
  iteSnd maxPos (pos + dir * inc) dir

/-- The direction/state coupling invariant of the data model: direction
`+1` only while `Opening`, `-1` only while `Closing`, and `Stopped` state
only with direction `0`. -/
def dirStateInv (s : Shade) : Prop :=
  (s.direction = 1 → s.state = .opening) ∧
  (s.direction = -1 → s.state = .closing) ∧
  (s.state = .stopped → s.direction = 0)

/-- Claim C7: the direction/state coupling invariant is maintained by every
state-machine transition (`set_open`, `set_close`, `set_stop`) and by every
estimator tick (`_track_position` iteration). -/
theorem C7_direction_state_coupling :
    (∀ (fb : Fb) (fuel : Nat) (s s' : Shade) (t : List Ev), dirStateInv s →
      set_open fb fuel s = some (s', t) → dirStateInv s') ∧
    (∀ (fb : Fb) (fuel : Nat) (s s' : Shade) (t : List Ev), dirStateInv s →
      set_close fb fuel s = some (s', t) → dirStateInv s') ∧
    (∀ (fb : Fb) (fuel : Nat) (s s' : Shade) (t : List Ev),
      set_stop fb fuel s = some (s', t) → dirStateInv s') ∧
    (∀ (fb : Fb) (fuel : Nat) (s s' : Shade) (t : List Ev), dirStateInv s →
      tick fb fuel s = some (s', t) → dirStateInv s') := by
  refine ⟨?_, ?_, ?_, ?_⟩
  · intro fb fuel s s' t hinv h
    cases hst : s.state with
    | stopped =>
      obtain ⟨i, _, hs', _⟩ := set_open_stopped fb fuel s s' t hst h
      rw [hs']
      exact ⟨fun _ => rfl, fun hc => by simp at hc, fun hc => by simp at hc⟩
    | closing =>
      obtain ⟨i, j, _, _, hs', _⟩ := set_open_closing fb fuel s s' t hst h
      rw [hs']
      exact ⟨fun _ => rfl, fun hc => by simp at hc, fun hc => by simp at hc⟩
    | opening =>
      rw [set_open_noop fb fuel s (by simp [hst]) (by simp [hst])] at h
      simp only [Option.some.injEq, Prod.mk.injEq] at h
      rw [← h.1]
      exact hinv
  · intro fb fuel s s' t hinv h
    cases hst : s.state with
    | stopped =>
      obtain ⟨i, _, hs', _⟩ := set_close_stopped fb fuel s s' t hst h
      rw [hs']
      exact ⟨fun hc => by simp at hc, fun _ => rfl, fun hc => by simp at hc⟩
    | opening =>
      obtain ⟨i, j, _, _, hs', _⟩ := set_close_opening fb fuel s s' t hst h
      rw [hs']
      exact ⟨fun hc => by simp at hc, fun _ => rfl, fun hc => by simp at hc⟩
    | closing =>
      rw [set_close_noop fb fuel s (by simp [hst]) (by simp [hst])] at h
      simp only [Option.some.injEq, Prod.mk.injEq] at h
      rw [← h.1]
      exact hinv
  · intro fb fuel s s' t h
    obtain ⟨i, _, hs', _⟩ := set_stop_eq fb fuel s s' t h
    rw [hs']
    exact ⟨fun hc => by simp at hc, fun hc => by simp at hc, fun _ => rfl⟩
  · intro fb fuel s s' t hinv h
    unfold tick at h
    obtain ⟨_, _, _, hcase⟩ := tickCore_cases _ _ _ _ _ _ h
    rcases hcase with ⟨hst, hdir⟩ | ⟨hst, hdir⟩
    · exact ⟨fun hc => by rw [hdir] at hc; simp at hc,
        fun hc => by rw [hdir] at hc; simp at hc, fun _ => hdir⟩
    · rcases trackStep_snd s.maxPosition s.increment s.position s.direction with hd0 | hdk
      · rw [hd0] at hdir
        exact ⟨fun hc => by rw [hdir] at hc; simp at hc,
          fun hc => by rw [hdir] at hc; simp at hc, fun _ => hdir⟩
      · rw [hdk] at hdir
        refine ⟨fun hc => ?_, fun hc => ?_, fun hc => ?_⟩
        · rw [hst]; exact hinv.1 (by rw [← hdir]; exact hc)
        · rw [hst]; exact hinv.2.1 (by rw [← hdir]; exact hc)
        · rw [hdir]; exact hinv.2.2 (by rw [← hst]; exact hc)

/-- Witness for C7: the invariant holds of a concrete stopped shade and is
carried through a concrete command and a concrete tick. -/
theorem C7_direction_state_coupling_witness :
    dirStateInv demoStopped ∧
    (set_open (constFb (true, false)) 1 demoStopped = some
        ((⟨CoverSt.opening, 100, 1, true, false, 100, 2⟩ : Shade),
         [Ev.relayWrite .closeR false, Ev.relayWrite .openR true,
          Ev.commit .opening, Ev.pubState "opening"]) ∧
      dirStateInv (⟨CoverSt.opening, 100, 1, true, false, 100, 2⟩ : Shade)) ∧
    (tick (constFb (false, false)) 1 demoStopped = some (demoStopped, []) ∧
      dirStateInv demoStopped) := by
  have hinv : dirStateInv demoStopped :=
    ⟨fun hc => by simp [demoStopped] at hc, fun hc => by simp [demoStopped] at hc,
     fun _ => rfl⟩
  refine ⟨hinv, ⟨rfl, ?_⟩, ⟨rfl, ?_⟩⟩
  · exact C7_direction_state_coupling.1 (constFb (true, false)) 1 demoStopped _ _ hinv rfl
  · exact C7_direction_state_coupling.2.2.2 (constFb (false, false)) 1 demoStopped _ _ hinv rfl

/-- Invariant carried along a command sequence: the commanded relay pair `p`
never has both relays ON, and while the logical state is `STOPPED` the open
relay is commanded off (`Stopped` is only ever committed after both-off
feedback, and the `Stopped → Close` handler writes close-ON before
open-OFF, so this is what makes that write order safe). -/
def cmdInv (s : Shade) (p : Bool × Bool) : Prop :=
  (p.1 && p.2) = false ∧ (s.state = .stopped → p.1 = false)

theorem neverBothOn_append (t1 t2 : List Ev) (p : Bool × Bool) :
    neverBothOn p (t1 ++ t2) =
      (neverBothOn p t1 && neverBothOn (t1.foldl applyW p) t2) := by
  induction t1 generalizing p with
  | nil => simp [neverBothOn]
  | cons e t ih =>
    simp only [List.cons_append, neverBothOn, List.foldl_cons, List.append_eq, ih,
      Bool.and_assoc]

theorem step_trace_inv (fb : Fb) (fuel : Nat) (c : Cmd) (s s1 : Shade)
    (t : List Ev) (p : Bool × Bool) (hinv : cmdInv s p)
    (h : step fb fuel s c = some (s1, t)) :
    neverBothOn p t = true ∧ cmdInv s1 (t.foldl applyW p) := by
  obtain ⟨po, pc⟩ := p
  obtain ⟨hp, hps⟩ := hinv
  cases c with
  | cOpen =>
    cases hst : s.state with
    | stopped =>
      obtain ⟨i, _, hs1, ht⟩ := set_open_stopped fb fuel s s1 t hst h
      subst ht
      refine ⟨by simp [neverBothOn, applyW], ?_, ?_⟩
      · simp [applyW]
      · rw [hs1]; intro hc; simp at hc
    | closing =>
      obtain ⟨i, j, _, _, hs1, ht⟩ := set_open_closing fb fuel s s1 t hst h
      subst ht
      refine ⟨by simp [neverBothOn, applyW], ?_, ?_⟩
      · simp [applyW]
      · rw [hs1]; intro hc; simp at hc
    | opening =>
      have h2 : some (s, ([] : List Ev)) = some (s1, t) :=
        (set_open_noop fb fuel s (by simp [hst]) (by simp [hst])).symm.trans h
      simp only [Option.some.injEq, Prod.mk.injEq] at h2
      obtain ⟨h3, h4⟩ := h2
      subst h3
      rw [← h4]
      exact ⟨rfl, hp, hps⟩
  | cClose =>
    cases hst : s.state with
    | stopped =>
      obtain ⟨i, _, hs1, ht⟩ := set_close_stopped fb fuel s s1 t hst h
      subst ht
      have hpo : po = false := hps hst
      subst hpo
      refine ⟨by simp [neverBothOn, applyW], ?_, ?_⟩
      · simp [applyW]
      · rw [hs1]; intro hc; simp at hc
    | opening =>
      obtain ⟨i, j, _, _, hs1, ht⟩ := set_close_opening fb fuel s s1 t hst h
      subst ht
      refine ⟨by simp [neverBothOn, applyW], ?_, ?_⟩
      · simp [applyW]
      · rw [hs1]; intro hc; simp at hc
    | closing =>
      have h2 : some (s, ([] : List Ev)) = some (s1, t) :=
        (set_close_noop fb fuel s (by simp [hst]) (by simp [hst])).symm.trans h
      simp only [Option.some.injEq, Prod.mk.injEq] at h2
      obtain ⟨h3, h4⟩ := h2
      subst h3
      rw [← h4]
      exact ⟨rfl, hp, hps⟩
  | cStop =>
    obtain ⟨i, _, hs1, ht⟩ := set_stop_eq fb fuel s s1 t h
    subst ht
    refine ⟨by simp [neverBothOn, applyW], ?_, ?_⟩
    · simp [applyW]
    · intro _; simp [applyW]

theorem runCmds_inv : ∀ (cs : List (Cmd × Fb)) (fuel : Nat) (s : Shade)
    (p : Bool × Bool) (s' : Shade) (T : List Ev),
    cmdInv s p → runCmds fuel s cs = some (s', T) →
    neverBothOn p T = true ∧ cmdInv s' (T.foldl applyW p) := by
  intro cs
  induction cs with
  | nil =>
    intro fuel s p s' T hinv h
    simp only [runCmds, Option.some.injEq, Prod.mk.injEq] at h
    obtain ⟨h1, h2⟩ := h
    subst h1
    rw [← h2]
    exact ⟨rfl, hinv⟩
  | cons cf rest ih =>
    obtain ⟨c, fb⟩ := cf
    intro fuel s p s' T hinv h
    unfold runCmds at h
    split at h
    · exact absurd h (by simp)
    · rename_i s1 t1 hstep
      split at h
      · exact absurd h (by simp)
      · rename_i s2 t2 hrest
        simp only [Option.some.injEq, Prod.mk.injEq] at h
        obtain ⟨h1, h2⟩ := h
        subst h1
        obtain ⟨hn1, hinv1⟩ := step_trace_inv fb fuel c s s1 t1 p hinv hstep
        obtain ⟨hn2, hinv2⟩ := ih fuel s1 (t1.foldl applyW p) s2 t2 hinv1 hrest
        rw [← h2]
        constructor
        · rw [neverBothOn_append, hn1, hn2]; rfl
        · rw [List.foldl_append]; exact hinv2

/-- Claim C1: for every sequence of Open/Close/Stop commands processed by
the state machine, the relay pair commanded by the controller never has
both relays written ON simultaneously (starting from the initial state:
logical state `STOPPED`, both relays off), and every individual command
handler that writes ON to one relay also writes OFF to the other and never
writes ON to both. -/
theorem C1_never_both_relays_commanded_on (fuel : Nat) (s0 : Shade)
    (cs : List (Cmd × Fb)) (s' : Shade) (T : List Ev)
    (_h0 : s0.state = .stopped) (hrun : runCmds fuel s0 cs = some (s', T)) :
    neverBothOn (false, false) T = true ∧
    (∀ (fb : Fb) (c : Cmd) (s s1 : Shade) (t : List Ev),
      step fb fuel s c = some (s1, t) →
      (Ev.relayWrite .openR true ∈ t → Ev.relayWrite .closeR false ∈ t) ∧
      (Ev.relayWrite .closeR true ∈ t → Ev.relayWrite .openR false ∈ t) ∧
      ¬ (Ev.relayWrite .openR true ∈ t ∧ Ev.relayWrite .closeR true ∈ t)) := by
  constructor
  · exact (runCmds_inv cs fuel s0 (false, false) s' T ⟨rfl, fun _ => rfl⟩ hrun).1
  · intro fb c s s1 t h
    cases c with
    | cOpen =>
      cases hst : s.state with
      | stopped =>
        obtain ⟨i, _, _, ht⟩ := set_open_stopped fb fuel s s1 t hst h
        subst ht
        refine ⟨fun _ => by simp, fun hc => ?_, fun hc => ?_⟩ <;> simp at hc
      | closing =>
        obtain ⟨i, j, _, _, _, ht⟩ := set_open_closing fb fuel s s1 t hst h
        subst ht
        refine ⟨fun _ => by simp, fun hc => ?_, fun hc => ?_⟩ <;> simp at hc
      | opening =>
        have h2 : some (s, ([] : List Ev)) = some (s1, t) :=
          (set_open_noop fb fuel s (by simp [hst]) (by simp [hst])).symm.trans h
        simp only [Option.some.injEq, Prod.mk.injEq] at h2
        rw [← h2.2]
        refine ⟨fun hc => ?_, fun hc => ?_, fun hc => ?_⟩ <;> simp at hc
    | cClose =>
      cases hst : s.state with
      | stopped =>
        obtain ⟨i, _, _, ht⟩ := set_close_stopped fb fuel s s1 t hst h
        subst ht
        refine ⟨fun hc => ?_, fun _ => by simp, fun hc => ?_⟩ <;> simp at hc
      | opening =>
        obtain ⟨i, j, _, _, _, ht⟩ := set_close_opening fb fuel s s1 t hst h
        subst ht
        refine ⟨fun hc => ?_, fun _ => by simp, fun hc => ?_⟩ <;> simp at hc
      | closing =>
        have h2 : some (s, ([] : List Ev)) = some (s1, t) :=
          (set_close_noop fb fuel s (by simp [hst]) (by simp [hst])).symm.trans h
        simp only [Option.some.injEq, Prod.mk.injEq] at h2
        rw [← h2.2]
        refine ⟨fun hc => ?_, fun hc => ?_, fun hc => ?_⟩ <;> simp at hc
    | cStop =>
      obtain ⟨i, _, _, ht⟩ := set_stop_eq fb fuel s s1 t h
      subst ht
      refine ⟨fun hc => ?_, fun hc => ?_, fun hc => ?_⟩ <;> simp at hc

def demoCmds : List (Cmd × Fb) :=
  [(Cmd.cOpen, constFb (true, false)), (Cmd.cStop, constFb (false, false)),
   (Cmd.cClose, constFb (false, true))]

/-- Witness for C1: a concrete Open, Stop, Close run from the initial state
whose full relay-write trace never has both relays commanded ON. -/
theorem C1_never_both_relays_commanded_on_witness :
    ∃ s' T, runCmds 1 demoStopped demoCmds = some (s', T) ∧
      neverBothOn (false, false) T = true := by
  refine ⟨_, _, rfl, ?_⟩
  exact (C1_never_both_relays_commanded_on 1 demoStopped demoCmds _ _ rfl rfl).1

theorem stoppedPred_false_false (p : Bool × Bool) (h : stoppedPred p = true) :
    p.1 = false ∧ p.2 = false := by
  unfold stoppedPred at h
  constructor
  · simpa using (Bool.and_eq_true _ _ |>.mp h).1
  · simpa using (Bool.and_eq_true _ _ |>.mp h).2

/-- Claim C5: a Close command received while Opening (and symmetrically an
Open command received while Closing) always passes through an intermediate
fully stopped state — both relays commanded off, feedback ¬open-on ∧
¬close-on observed, state committed `Stopped` with direction `0` — before
the opposite relay is commanded ON; there is no direct relay swap. -/
theorem C5_reversal_passes_through_stop (fb : Fb) (fuel : Nat) (s : Shade) :
    (∀ s' t, s.state = .opening → set_close fb fuel s = some (s', t) →
      ∃ i s1, state_stopped fb fuel s = some (i, s1, [Ev.commit .stopped]) ∧
        s1.state = .stopped ∧ s1.direction = 0 ∧
        s1.openRelayState = false ∧ s1.closeRelayState = false ∧
        t = [Ev.relayWrite .closeR false, Ev.relayWrite .openR false, Ev.commit .stopped,
             Ev.relayWrite .closeR true, Ev.relayWrite .openR false,
             Ev.commit .closing, Ev.pubState "closing"] ∧
        ∃ t1 t2, t = t1 ++ Ev.commit .stopped :: t2 ∧
          (∀ e ∈ t1, isOnWrite e = false) ∧ Ev.relayWrite .closeR true ∈ t2) ∧
    (∀ s' t, s.state = .closing → set_open fb fuel s = some (s', t) →
      ∃ i s1, state_stopped fb fuel s = some (i, s1, [Ev.commit .stopped]) ∧
        s1.state = .stopped ∧ s1.direction = 0 ∧
        s1.openRelayState = false ∧ s1.closeRelayState = false ∧
        t = [Ev.relayWrite .closeR false, Ev.relayWrite .openR false, Ev.commit .stopped,
             Ev.relayWrite .closeR false, Ev.relayWrite .openR true,
             Ev.commit .opening, Ev.pubState "opening"] ∧
        ∃ t1 t2, t = t1 ++ Ev.commit .stopped :: t2 ∧
          (∀ e ∈ t1, isOnWrite e = false) ∧ Ev.relayWrite .openR true ∈ t2) := by
  constructor
  · intro s' t hst h
    obtain ⟨i, j, hw1, hw2, hs', ht⟩ := set_close_opening fb fuel s s' t hst h
    obtain ⟨_, _, hpred, _⟩ := waitFor_spec fuel stoppedPred fb 0 i hw1
    obtain ⟨h1, h2⟩ := stoppedPred_false_false _ hpred
    refine ⟨i, { s with state := .stopped, direction := 0, openRelayState := (fb i).1, closeRelayState := (fb i).2 }, ?_, rfl, rfl, h1, h2, ht, ?_⟩
    · unfold state_stopped
      rw [hw1]
    · subst ht
      refine ⟨[Ev.relayWrite .closeR false, Ev.relayWrite .openR false],
        [Ev.relayWrite .closeR true, Ev.relayWrite .openR false,
         Ev.commit .closing, Ev.pubState "closing"], rfl, by decide, by simp⟩
  · intro s' t hst h
    obtain ⟨i, j, hw1, hw2, hs', ht⟩ := set_open_closing fb fuel s s' t hst h
    obtain ⟨_, _, hpred, _⟩ := waitFor_spec fuel stoppedPred fb 0 i hw1
    obtain ⟨h1, h2⟩ := stoppedPred_false_false _ hpred
    refine ⟨i, { s with state := .stopped, direction := 0, openRelayState := (fb i).1, closeRelayState := (fb i).2 }, ?_, rfl, rfl, h1, h2, ht, ?_⟩
    · unfold state_stopped
      rw [hw1]
    · subst ht
      refine ⟨[Ev.relayWrite .closeR false, Ev.relayWrite .openR false],
        [Ev.relayWrite .closeR false, Ev.relayWrite .openR true,
         Ev.commit .opening, Ev.pubState "opening"], rfl, by decide, by simp⟩

/-- Feedback stream for a reversal: both relays report off at the first
poll, then the close relay reports on. -/
def demoFbRev : Fb := fun n => if n = 0 then (false, false) else (false, true)

/-- Witness for C5: a concrete Close-while-Opening run. -/
theorem C5_reversal_passes_through_stop_witness :
    ∃ s' t, set_close demoFbRev 2 demoOpening = some (s', t) ∧
      ∃ i s1, state_stopped demoFbRev 2 demoOpening = some (i, s1, [Ev.commit .stopped]) ∧
        s1.state = .stopped ∧ s1.direction = 0 ∧
        s1.openRelayState = false ∧ s1.closeRelayState = false := by
  refine ⟨_, _, rfl, ?_⟩
  obtain ⟨i, s1, hss, hs1, hd1, ho1, hc1, _⟩ :=
    (C5_reversal_passes_through_stop demoFbRev 2 demoOpening).1 _ _ rfl rfl
  exact ⟨i, s1, hss, hs1, hd1, ho1, hc1⟩


theorem trackStep_zero (m inc : Int) : trackStep m inc 0 0 = (0, 0) := by
  unfold trackStep
  by_cases h : (0 : Int) ≤ m
  · rw [if_neg (by simp [h])]
    simp
  · rw [if_pos (by simp; omega)]
    simp only [Prod.mk.injEq]
    refine ⟨by omega, by simp⟩

theorem trackStep_idle (m inc p : Int) (h0 : 0 ≤ p) (h1 : p ≤ m) :
    trackStep m inc p 0 = (p, 0) := by
  unfold trackStep
  rw [if_neg (by simp; omega)]
  simp

theorem tick_stopped_still (fb : Fb) (fuel : Nat) (s : Shade)
    (hst : s.state = .stopped) (hd : s.direction = 0)
    (hp : trackStep s.maxPosition s.increment s.position s.direction =
      (s.position, s.direction)) :
    tick fb fuel s = some (s, []) := by
  unfold tick tickCore
  rw [hp]
  rw [if_neg (by simp [hst])]
  rw [if_neg (by simp [hst])]
  unfold posEvents
  rw [if_neg (by simp [hd])]

/-- Claim C4: when the estimator's updated position reaches 0 while the
logical state is not `Stopped`, the tick forces a Stop (relay-off writes
awaiting both-off feedback, exactly as a commanded Stop, which also forces
direction to `Stopped`), then publishes position 0 and then state
`"closed"`; symmetrically at `max_position` it publishes the max position
and then `"open"`.  The resulting state is stopped with direction 0 and the
next tick from it emits nothing: the boundary events fire exactly once per
crossing. -/
theorem C4_boundary_stop_publish_once :
    (∀ (fb : Fb) (fuel : Nat) (s s' : Shade) (t : List Ev),
      s.state ≠ .stopped →
      (trackStep s.maxPosition s.increment s.position s.direction).1 = 0 →
      tick fb fuel s = some (s', t) →
      s'.state = .stopped ∧ s'.direction = 0 ∧ s'.position = 0 ∧
      t = [Ev.relayWrite .closeR false, Ev.relayWrite .openR false, Ev.commit .stopped,
           Ev.pubPosition 0, Ev.pubState "closed"] ∧
      (∀ (fb2 : Fb) (fuel2 : Nat), tick fb2 fuel2 s' = some (s', []))) ∧
    (∀ (fb : Fb) (fuel : Nat) (s s' : Shade) (t : List Ev),
      s.state ≠ .stopped → 0 < s.maxPosition →
      (trackStep s.maxPosition s.increment s.position s.direction).1 = s.maxPosition →
      tick fb fuel s = some (s', t) →
      s'.state = .stopped ∧ s'.direction = 0 ∧ s'.position = s.maxPosition ∧
      t = [Ev.relayWrite .closeR false, Ev.relayWrite .openR false, Ev.commit .stopped,
           Ev.pubPosition s.maxPosition, Ev.pubState "open"] ∧
      (∀ (fb2 : Fb) (fuel2 : Nat), tick fb2 fuel2 s' = some (s', []))) := by
  constructor
  · intro fb fuel s s' t hst hr0 h
    unfold tick tickCore at h
    rw [if_pos ⟨hr0, hst⟩] at h
    split at h
    · exact absurd h (by simp)
    · rename_i s2 t2 hstop
      simp only [Option.some.injEq, Prod.mk.injEq] at h
      obtain ⟨h1, h2⟩ := h
      obtain ⟨i, hw, hs2, ht2⟩ := set_stop_eq _ _ _ _ _ hstop
      subst h1
      have hpos : posEvents (trackStep s.maxPosition s.increment s.position s.direction)
          s.maxPosition = [] := by
        unfold posEvents
        rw [if_neg (by rw [hr0]; simp)]
      have hst2 : s2.state = .stopped := by rw [hs2]
      have hd2 : s2.direction = 0 := by rw [hs2]
      have hp2 : s2.position = 0 := by rw [hs2]; exact hr0
      refine ⟨hst2, hd2, hp2, ?_, ?_⟩
      · rw [← h2, hpos, ht2]
        rfl
      · intro fb2 fuel2
        refine tick_stopped_still fb2 fuel2 s2 hst2 hd2 ?_
        rw [hp2, hd2, trackStep_zero]
  · intro fb fuel s s' t hst hm hrm h
    unfold tick tickCore at h
    rw [if_neg (by intro hc; rw [hrm] at hc; exact absurd hc.1 (by omega))] at h
    rw [if_pos ⟨hrm, hst⟩] at h
    split at h
    · exact absurd h (by simp)
    · rename_i s2 t2 hstop
      simp only [Option.some.injEq, Prod.mk.injEq] at h
      obtain ⟨h1, h2⟩ := h
      obtain ⟨i, hw, hs2, ht2⟩ := set_stop_eq _ _ _ _ _ hstop
      subst h1
      have hpos : posEvents (trackStep s.maxPosition s.increment s.position s.direction)
          s.maxPosition = [] := by
        unfold posEvents
        rw [if_neg (by rw [hrm]; simp)]
      have hst2 : s2.state = .stopped := by rw [hs2]
      have hd2 : s2.direction = 0 := by rw [hs2]
      have hp2 : s2.position = s.maxPosition := by rw [hs2]; exact hrm
      have hmax2 : s2.maxPosition = s.maxPosition := by rw [hs2]
      refine ⟨hst2, hd2, hp2, ?_, ?_⟩
      · rw [← h2, hpos, ht2]
        rfl
      · intro fb2 fuel2
        refine tick_stopped_still fb2 fuel2 s2 hst2 hd2 ?_
        rw [hp2, hd2, hmax2, trackStep_idle s.maxPosition s2.increment s.maxPosition
          (by omega) (by omega)]

def demoClosingNearZero : Shade := ⟨CoverSt.closing, 2, -1, false, true, 100, 2⟩

def demoOpeningNearMax : Shade := ⟨CoverSt.opening, 98, 1, true, false, 100, 2⟩

/-- Witness for C4: concrete boundary crossings at 0 and at max. -/
theorem C4_boundary_stop_publish_once_witness :
    (∃ s', tick (constFb (false, false)) 1 demoClosingNearZero = some
        (s', [Ev.relayWrite .closeR false, Ev.relayWrite .openR false, Ev.commit .stopped,
              Ev.pubPosition 0, Ev.pubState "closed"]) ∧
      s'.state = .stopped ∧ s'.direction = 0 ∧ s'.position = 0 ∧
      tick (constFb (false, false)) 1 s' = some (s', [])) ∧
    (∃ s'', tick (constFb (false, false)) 1 demoOpeningNearMax = some
        (s'', [Ev.relayWrite .closeR false, Ev.relayWrite .openR false, Ev.commit .stopped,
               Ev.pubPosition 100, Ev.pubState "open"]) ∧
      s''.state = .stopped ∧ s''.direction = 0 ∧ s''.position = 100 ∧
      tick (constFb (false, false)) 1 s'' = some (s'', [])) := by
  constructor
  · refine ⟨_, rfl, ?_⟩
    obtain ⟨h1, h2, h3, _, h5⟩ := C4_boundary_stop_publish_once.1 (constFb (false, false)) 1
      demoClosingNearZero _ _ (by decide) rfl rfl
    exact ⟨h1, h2, h3, h5 (constFb (false, false)) 1⟩
  · refine ⟨_, rfl, ?_⟩
    obtain ⟨h1, h2, h3, _, h5⟩ := C4_boundary_stop_publish_once.2 (constFb (false, false)) 1
      demoOpeningNearMax _ _ (by decide) (by decide) rfl rfl
    exact ⟨h1, h2, h3, h5 (constFb (false, false)) 1⟩

theorem scanRelays_sound : ∀ (vs acc acc2 : List String),
    scanRelays acc vs = some acc2 → acc2 = acc ++ vs := by
  intro vs
  induction vs with
  | nil =>
    intro acc acc2 h
    simp only [scanRelays, Option.some.injEq] at h
    simp [h.symm]
  | cons v vs ih =>
    intro acc acc2 h
    unfold scanRelays at h
    split at h
    · exact absurd h (by simp)
    · rw [ih (acc ++ [v]) acc2 h]
      simp

theorem scanRelays_isSome : ∀ (vs acc : List String), acc.Nodup →
    ((scanRelays acc vs).isSome ↔ (acc ++ vs).Nodup) := by
  intro vs
  induction vs with
  | nil => intro acc hacc; simp [scanRelays, hacc]
  | cons v vs ih =>
    intro acc hacc
    unfold scanRelays
    by_cases hv : v ∈ acc
    · rw [if_pos hv]
      simp only [Option.isSome_none, Bool.false_eq_true, false_iff]
      intro hnd
      rw [List.nodup_append] at hnd
      exact hnd.2.2 hv (List.mem_cons_self v vs)
    · rw [if_neg hv]
      have hacc2 : (acc ++ [v]).Nodup := by
        rw [List.nodup_append]
        refine ⟨hacc, List.nodup_singleton v, ?_⟩
        intro a ha hav
        rw [List.mem_singleton] at hav
        subst hav
        exact hv ha
      rw [ih (acc ++ [v]) hacc2, List.append_assoc, List.singleton_append]

theorem isConfigValidAux_ok_true : ∀ (c : Config) (acc : List String), acc.Nodup →
    (isConfigValidAux acc c = .ok true ↔
      ((∀ sh ∈ c, shadeSpecOK sh.2) ∧ (acc ++ configRelays c).Nodup)) := by
  intro c
  induction c with
  | nil =>
    intro acc hacc
    simp [isConfigValidAux, configRelays, hacc]
  | cons sh rest ih =>
    obtain ⟨name, m⟩ := sh
    intro acc hacc
    unfold isConfigValidAux
    by_cases hops : opsOK m = true
    · rw [if_pos hops]
      split
      · rename_i hopen
        simp only [reduceCtorEq, false_iff]
        rintro ⟨hall, -⟩
        have h2 := (hall (name, m) (List.mem_cons_self _ _)).2.1
        rw [hopen] at h2
        exact absurd h2 (by simp)
      · rename_i ro hopen
        split
        · rename_i hclose
          simp only [reduceCtorEq, false_iff]
          rintro ⟨hall, -⟩
          have h2 := (hall (name, m) (List.mem_cons_self _ _)).2.2.1
          rw [hclose] at h2
          exact absurd h2 (by simp)
        · rename_i rc hclose
          by_cases hrc : ro = rc
          · rw [if_pos hrc]
            simp only [Except.ok.injEq, Bool.false_eq_true, false_iff]
            rintro ⟨hall, -⟩
            have h2 := (hall (name, m) (List.mem_cons_self _ _)).2.2.2
            rw [hopen, hclose, hrc] at h2
            exact absurd rfl h2
          · rw [if_neg hrc]
            split
            · rename_i hscan
              simp only [Except.ok.injEq, Bool.false_eq_true, false_iff]
              rintro ⟨-, hnd⟩
              have hval : ¬ (acc ++ m.map Prod.snd).Nodup := by
                intro hc
                have h3 := (scanRelays_isSome (m.map Prod.snd) acc hacc).mpr hc
                rw [hscan] at h3
                exact absurd h3 (by simp)
              apply hval
              have h4 : (acc ++ (m.map Prod.snd ++ configRelays rest)).Nodup := hnd
              rw [← List.append_assoc] at h4
              exact h4.of_append_left
            · rename_i acc2 hscan
              have hacc2eq : acc2 = acc ++ m.map Prod.snd := scanRelays_sound _ _ _ hscan
              have hacc2 : acc2.Nodup := by
                have h2 := (scanRelays_isSome (m.map Prod.snd) acc hacc).mp
                  (by rw [hscan]; rfl)
                rw [hacc2eq]
                exact h2
              rw [ih acc2 hacc2]
              have hspec : shadeSpecOK m := by
                refine ⟨?_, by rw [hopen]; rfl, by rw [hclose]; rfl, ?_⟩
                · intro kv hkv
                  have h3 := (List.all_eq_true.mp hops) kv hkv
                  rcases Bool.or_eq_true _ _ |>.mp h3 with h4 | h4
                  · exact Or.inl (by simpa using h4)
                  · exact Or.inr (by simpa using h4)
                · rw [hopen, hclose]
                  simpa using hrc
              constructor
              · rintro ⟨hrest, hnd⟩
                refine ⟨?_, ?_⟩
                · intro sh2 hsh2
                  rcases List.mem_cons.mp hsh2 with h5 | h5
                  · rw [h5]
                    exact hspec
                  · exact hrest sh2 h5
                · show (acc ++ (m.map Prod.snd ++ configRelays rest)).Nodup
                  rw [← List.append_assoc, ← hacc2eq]
                  exact hnd
              · rintro ⟨hall, hnd⟩
                refine ⟨fun sh2 h5 => hall sh2 (List.mem_cons_of_mem _ h5), ?_⟩
                rw [hacc2eq, List.append_assoc]
                exact hnd
    · rw [if_neg hops]
      simp only [Except.ok.injEq, Bool.false_eq_true, false_iff]
      rintro ⟨hall, -⟩
      refine hops ?_
      unfold opsOK
      rw [List.all_eq_true]
      intro kv hkv
      rcases (hall (name, m) (List.mem_cons_self _ _)).1 kv hkv with h4 | h4 <;>
        rw [h4] <;> simp

/-- Claim C8: `_is_config_valid` returns `True` exactly when every per-shade
key is one of `{open, close}`, the open relay id differs from the close
relay id within each shade (both being present), and every relay id is
globally unique across shades; and whenever it returns `False` the process
does not connect to the message bus (it exits with nonzero status). -/
theorem C8_config_validation :
    (∀ c : Config, isConfigValid c = .ok true ↔ configValidSpec c) ∧
    (∀ c : Config, isConfigValid c = .ok false → mainConnectsBus c = false) := by
  constructor
  · intro c
    unfold isConfigValid configValidSpec
    have h := isConfigValidAux_ok_true c [] List.nodup_nil
    rw [h]
    simp
  · intro c h
    unfold mainConnectsBus
    rw [h]

def demoDupConfig : Config :=
  [("kitchen", [("open", "r1"), ("close", "r2")]),
   ("living", [("open", "r1"), ("close", "r3")])]

/-- Witness for C8: a duplicate relay id across two shades makes the
validator return `False` and the process stops before connecting. -/
theorem C8_config_validation_witness :
    isConfigValid demoDupConfig = .ok false ∧ mainConnectsBus demoDupConfig = false :=
  ⟨rfl, C8_config_validation.2 demoDupConfig rfl⟩

theorem splitSlash_ne_nil : ∀ s : List Char, splitSlash s ≠ [] := by
  intro s
  cases s with
  | nil => simp [splitSlash]
  | cons c rest =>
    unfold splitSlash
    split
    · simp
    · split <;> simp

theorem joinSlash_splitSlash : ∀ s : List Char, joinSlash (splitSlash s) = s := by
  intro s
  induction s with
  | nil => rfl
  | cons c rest ih =>
    unfold splitSlash
    by_cases hc : c = '/'
    · rw [if_pos hc]
      subst hc
      cases hsp : splitSlash rest with
      | nil => exact absurd hsp (splitSlash_ne_nil rest)
      | cons p ps =>
        rw [hsp] at ih
        show joinSlash ([] :: p :: ps) = '/' :: rest
        rw [show joinSlash ([] :: p :: ps) = '/' :: joinSlash (p :: ps) from rfl, ih]
    · rw [if_neg hc]
      cases hsp : splitSlash rest with
      | nil => exact absurd hsp (splitSlash_ne_nil rest)
      | cons p ps =>
        rw [hsp] at ih
        cases ps with
        | nil =>
          show joinSlash [c :: p] = c :: rest
          rw [show joinSlash [c :: p] = c :: p from rfl]
          rw [show joinSlash [p] = p from rfl] at ih
          rw [ih]
        | cons q qs =>
          show joinSlash ((c :: p) :: q :: qs) = c :: rest
          rw [show joinSlash ((c :: p) :: q :: qs) = (c :: p) ++ '/' :: joinSlash (q :: qs)
            from rfl]
          rw [show joinSlash (p :: q :: qs) = p ++ '/' :: joinSlash (q :: qs) from rfl] at ih
          rw [List.cons_append, ih]

theorem splitSlash_append (xs : List Char) : ∀ ys : List Char, '/' ∉ xs →
    splitSlash (xs ++ '/' :: ys) = xs :: splitSlash ys := by
  induction xs with
  | nil =>
    intro ys _
    simp [splitSlash]
  | cons c xs ih =>
    intro ys h
    have hc : c ≠ '/' := fun hcc => h (hcc ▸ List.mem_cons_self c xs)
    have hih := ih ys fun hm => h (List.mem_cons_of_mem c hm)
    rw [List.cons_append]
    generalize hz : splitSlash ys = z at hih ⊢
    unfold splitSlash
    rw [if_neg hc, hih]

theorem splitSlash_no_slash : ∀ xs : List Char, '/' ∉ xs → splitSlash xs = [xs] := by
  intro xs
  induction xs with
  | nil => intro _; rfl
  | cons c xs ih =>
    intro h
    have hc : c ≠ '/' := fun hcc => h (hcc ▸ List.mem_cons_self c xs)
    unfold splitSlash
    rw [if_neg hc, ih (fun hm => h (List.mem_cons_of_mem c hm))]

theorem wordB_no_slash (xs : List Char) (h : wordB xs = true) : '/' ∉ xs := by
  intro hm
  unfold wordB at h
  have h2 := List.all_eq_true.mp (Bool.and_eq_true _ _ |>.mp h).2 '/' hm
  exact absurd h2 (by decide)

/-- Claim C9, counterexample: the claim says the parser accepts every topic
`{base}/{entity}/{name}/{action}` with `action ∈ {set, state, position}`,
but `TOPIC_REGEX`'s action alternation is only `(set|state)`: the well-formed
position topic `a/cover/b/position` is claimed accepted yet does not match. -/
theorem C9_topic_parser_counterexample :
    parseTopic ("a/cover/b/position".toList) = none ∧
    topicClaimed ("a/cover/b/position".toList) := by
  constructor
  · rfl
  · exact ⟨"a".toList, "cover".toList, "b".toList, "position".toList, by decide, by decide,
      Or.inl rfl, by decide, Or.inr (Or.inr rfl)⟩

/-- Claim C9 as amended: the topic parser `TOPIC_REGEX` accepts exactly the
topics of the form `{base}/{entity}/{name}/{action}` where base and name are
nonempty word-character strings, `entity ∈ {cover, relay, input}` and
`action ∈ {set (command), state}` — `position` topics are not parsed — and it
signals no-match (`none`), rather than raising, on every other string. -/
theorem C9_topic_parser_accepts_exactly (s : List Char) :
    (parseTopic s).isSome = true ↔
      ∃ b e n a, s = topicFor b e n a ∧ wordB b = true ∧
        (e = "cover".toList ∨ e = "relay".toList ∨ e = "input".toList) ∧
        wordB n = true ∧ (a = "set".toList ∨ a = "state".toList) := by
  constructor
  · intro h
    unfold parseTopic at h
    split at h
    · rename_i b e n a hsp
      split at h
      · rename_i hcond
        simp only [Bool.and_eq_true] at hcond
        obtain ⟨⟨⟨hb, he⟩, hn⟩, ha⟩ := hcond
        refine ⟨b, e, n, a, ?_, hb, ?_, hn, ?_⟩
        · have hj := joinSlash_splitSlash s
          rw [hsp] at hj
          rw [← hj]
          rfl
        · unfold entityB at he
          simp only [Bool.or_eq_true, beq_iff_eq] at he
          tauto
        · unfold actionB at ha
          simp only [Bool.or_eq_true, beq_iff_eq] at ha
          tauto
      · exact absurd h (by simp)
    · exact absurd h (by simp)
  · rintro ⟨b, e, n, a, rfl, hb, he, hn, ha⟩
    have hbs : '/' ∉ b := wordB_no_slash b hb
    have hns : '/' ∉ n := wordB_no_slash n hn
    have hes : '/' ∉ e := by rcases he with rfl | rfl | rfl <;> decide
    have has : '/' ∉ a := by rcases ha with rfl | rfl <;> decide
    have hsp : splitSlash (topicFor b e n a) = [b, e, n, a] := by
      unfold topicFor
      rw [splitSlash_append b _ hbs, splitSlash_append e _ hes,
        splitSlash_append n _ hns, splitSlash_no_slash a has]
    have he2 : entityB e = true := by
      unfold entityB
      rcases he with rfl | rfl | rfl <;> rfl
    have ha2 : actionB a = true := by
      unfold actionB
      rcases ha with rfl | rfl <;> rfl
    unfold parseTopic
    rw [hsp]
    show (if wordB b && entityB e && wordB n && actionB a
        then some (b, e, n, a) else none).isSome = true
    rw [hb, he2, hn, ha2]
    rfl

end Covers
